import Mathlib

/-!
Shallow embedding of the reshaping/alignment core of analysis.py
(COVID-19 time-series charting script).

Conventions of the embedding:
* A raw table (src/analysis.py, columns produced by get_data) is a list of
  rows; each row carries the geography identifiers province/state and
  country/region plus the list of per-date counts (the columns from
  position 4 onward).  The latitude/longitude columns never influence any
  computation modelled here and are omitted from the row structure.
* Dates are handled positionally: a table invariantly has one fixed date
  axis, so a series is a plain list of signed counts, indexed by position.
* pandas cells are Int; a missing value (NaN produced by label alignment)
  is modelled as the none case of Option Int.
-/

namespace Corona

/-- Row of one case-type table: geography identifiers plus the per-date
counts (the columns from position 4 onward of the csv). -/
structure Row where
  province : Option String
  country : String
  counts : List Int
deriving DecidableEq, Repr

/-- Element-wise sum of a list of equal-length rows of counts, as pandas
sum with axis 0 over the selected rows: the empty selection sums to the
all-zero series over the date axis (length nd). -/
def sumRows (nd : Nat) (rows : List (List Int)) : List Int :=
  rows.foldr (fun r acc => List.zipWith (· + ·) r acc) (List.replicate nd 0)

/-- get_num_cases (src/analysis.py lines 54-68): with a province, filter on
both country/region and province/state and flatten the values of all
matching rows; without a province, filter on country/region and sum the
matching rows element-wise over the date axis. -/
def get_num_cases (nd : Nat) (t : List Row) (country : String)
    (province : Option String) : List Int :=
  match province with
  | some p =>
      ((t.filter (fun r => r.country == country && r.province == some p)).map
        Row.counts).flatten
  | none =>
      sumRows nd ((t.filter (fun r => r.country == country)).map Row.counts)

/-- Threshold-alignment core of get_first (src/analysis.py lines 299-311):
if every value is below n the result is None; otherwise the rows kept are
exactly those whose value is at least n (result.loc with result at least n)
and they are paired with num_days running 0,1,2,... over the kept rows. -/
def align_from_threshold (series : List Int) (n : Int) :
    Option (List (Nat × Int)) :=
  if series.all (fun x => x < n) then none
  else some ((series.filter (fun x => n ≤ x)).enum)

/-- get_first (src/analysis.py lines 284-313): aggregate the series for the
requested geography exactly as get_num_cases does, then threshold-align it.
With a province the code takes row 0 of the filtered frame (iloc[0, :]). -/
def get_first (nd : Nat) (t : List Row) (n : Int) (country : String)
    (province : Option String) : Option (List (Nat × Int)) :=
  let series : List Int :=
    match province with
    | none =>
        sumRows nd ((t.filter (fun r => r.country == country)).map Row.counts)
    | some p =>
        (((t.filter (fun r =>
            r.country == country && r.province == some p)).map
          Row.counts).headD [])
  align_from_threshold series n

/-- Day-over-day loop body of plot_new_cases: given the previous column,
each further column is the difference to its predecessor. -/
def daily_delta_aux : Int → List Int → List Int
  | _, [] => []
  | prev, y :: ys => (y - prev) :: daily_delta_aux y ys

/-- daily-new computation of plot_new_cases (src/analysis.py lines
234-241): the first date column is copied unchanged, every later column is
the difference between a column and the previous one. -/
def daily_delta : List Int → List Int
  | [] => []
  | x :: xs => x :: daily_delta_aux x xs

/-- Cumulative (running) sum of a series of new counts, the inverse-image
side of the left-inverse property of daily_delta. -/
def running_sum_aux : Int → List Int → List Int
  | _, [] => []
  | acc, x :: xs => (acc + x) :: running_sum_aux (acc + x) xs

/-- Running sum of a series, starting from zero. -/
def running_sum (l : List Int) : List Int :=
  running_sum_aux 0 l

/-- daily_new derived table of plot_new_cases: the geography identifiers
are kept and each row of counts is replaced by its day-over-day series. -/
def daily_new_table (t : List Row) : List Row :=
  t.map (fun r => { r with counts := daily_delta r.counts })

/-- Element-wise difference of two tables of counts sharing shape
(positionally aligned rows and a common date axis). -/
def table_sub (a b : List (List Int)) : List (List Int) :=
  List.zipWith (List.zipWith (· - ·)) a b

/-- Active-cases table of plot_active_cases (src/analysis.py lines
175-177) on positionally aligned tables: confirmed minus recovered minus
death, element-wise. -/
def active_table (c r d : List (List Int)) : List (List Int) :=
  table_sub (table_sub c r) d

/-- Cell accessor for a table of counts: row i, date position j, reading 0
outside the table. -/
def cell (t : List (List Int)) (i j : Nat) : Int :=
  (t.getD i []).getD j 0

/-- Cell of a table with possibly missing values: the none case stands for
a pandas NaN. -/
def cellAt (t : List (List (Option Int))) (i j : Nat) : Option Int :=
  match t[i]? with
  | none => none
  | some row => (row[j]?).join

/-- Pandas cell subtraction: a missing operand propagates to a missing
result. -/
def subCell : Option Int → Option Int → Option Int
  | some x, some y => some (x - y)
  | _, _ => none

/-- Pandas data-frame subtraction on the default integer row index and a
shared date axis of length nd: the result ranges over the union of the row
indices, and a cell missing from either operand becomes missing (NaN). -/
def pd_sub (nd : Nat) (a b : List (List (Option Int))) :
    List (List (Option Int)) :=
  (List.range (max a.length b.length)).map (fun i =>
    (List.range nd).map (fun j => subCell (cellAt a i j) (cellAt b i j)))

/-- View of an all-present table as a table with possibly missing values. -/
def toOpt (t : List (List Int)) : List (List (Option Int)) :=
  t.map (fun row => row.map some)

/-- Active-cases computation as the code executes it through pandas
alignment (plot_active_cases, src/analysis.py lines 175-177): two
data-frame subtractions, total, never raising. -/
def active_pd (nd : Nat) (c r d : List (List Int)) :
    List (List (Option Int)) :=
  pd_sub nd (pd_sub nd (toOpt c) (toOpt r)) (toOpt d)

/-- Calendar date as year, month, day. -/
structure Date where
  year : Nat
  month : Nat
  day : Nat
deriving DecidableEq, Repr

/-- get_end_month (src/analysis.py lines 71-76): datetime(2020, month, 28),
the fixed reference year 2020 and the fixed day-of-month 28. -/
def get_end_month (month : Nat) : Date :=
  ⟨2020, month, 28⟩

/-- Distinct months of the dates, ascending, modelling the Python
expression list(set(date.month for date in date_list)): CPython iterates a
set of small non-negative ints in ascending numeric order. -/
def month_list (dates : List Date) : List Nat :=
  (List.range 13).filter (fun m => (dates.map Date.month).contains m)

/-- get_end_months (src/analysis.py lines 79-96): one synthetic end-of-month
date per distinct month of the input dates. -/
def get_end_months (dates : List Date) : List Date :=
  (month_list dates).map get_end_month

/-- Decimal digits of n left-padded with zeros to width 2, as strftime %m. -/
def pad2 (n : Nat) : String :=
  if n < 10 then "0" ++ toString n else toString n

/-- Decimal digits of n left-padded with zeros to width 4, as strftime %Y. -/
def pad4 (n : Nat) : String :=
  if n < 10 then "000" ++ toString n
  else if n < 100 then "00" ++ toString n
  else if n < 1000 then "0" ++ toString n
  else toString n

/-- format_datetime (src/analysis.py lines 99-103): strftime with format
mm-yyyy, two-digit zero-padded month, dash, four-digit year. -/
def format_datetime (dt : Date) : String :=
  pad2 dt.month ++ "-" ++ pad4 dt.year

/-! Helper lemmas shared by the threshold-alignment theorems. -/

lemma not_all_lt (series : List Int) (n : Int) (hex : ∃ x ∈ series, n ≤ x) :
    ¬ (series.all (fun x => x < n) = true) := by
  intro hall
  obtain ⟨x, hx, hnx⟩ := hex
  rw [List.all_eq_true] at hall
  have := hall x hx
  simp only [decide_eq_true_eq] at this
  omega

lemma filter_drop_findIdx (p : Int → Bool) :
    ∀ l : List Int, (l.drop (l.findIdx p)).filter p = l.filter p
  | [] => rfl
  | x :: xs => by
    by_cases h : p x
    · simp [List.findIdx_cons, h]
    · have hx : p x = false := by simpa using h
      simp only [List.findIdx_cons, hx, cond_false, List.drop_succ_cons,
        List.filter_cons, Bool.false_eq_true, ite_false]
      exact filter_drop_findIdx p xs

lemma head?_filter_eq_find? (p : Int → Bool) :
    ∀ l : List Int, (l.filter p).head? = l.find? p
  | [] => rfl
  | x :: xs => by
    by_cases h : p x
    · simp [List.filter_cons, h, List.find?_cons, h]
    · simp only [List.filter_cons, h, if_neg, List.find?_cons, cond_false,
        Bool.false_eq_true, ite_false]
      exact head?_filter_eq_find? p xs

/-- C1 (counterexample): on the non-monotonic series [5, 150, 50, 200]
with threshold 100 the claim predicts that every point from the first
crossing onward is kept, giving [(0,150), (1,50), (2,200)]; the code keeps
only the values at least 100 and re-indexes them consecutively, giving
[(0,150), (1,200)]. -/
theorem get_first_drops_fallback_point :
    align_from_threshold [5, 150, 50, 200] 100 ≠
      some [(0, 150), (1, 50), (2, 200)] := by
  decide

/-- C1 (amended): when some value reaches the threshold,
align_from_threshold drops every point before the first left-to-right
crossing index k, but of the points from k onward it keeps only those
whose value is still at least n (later points that fall back below n are
dropped too), re-indexing the kept points consecutively as 0,1,2,... with
their original count values unmodified. -/
theorem get_first_keeps_only_at_least_n (series : List Int) (n : Int)
    (hex : ∃ x ∈ series, n ≤ x) :
    align_from_threshold series n =
      some (((series.drop (series.findIdx (fun x => n ≤ x))).filter
        (fun x => n ≤ x)).enum) := by
  unfold align_from_threshold
  rw [if_neg (not_all_lt series n hex), filter_drop_findIdx]

/-- Witness for the amended C1 theorem at the concrete non-monotonic
series of the counterexample. -/
theorem get_first_keeps_only_at_least_n_witness :
    align_from_threshold [5, 150, 50, 200] 100 =
      some ((([5, 150, 50, 200].drop
        (([5, 150, 50, 200] : List Int).findIdx (fun x => (100:Int) ≤ x))).filter
        (fun x => (100:Int) ≤ x)).enum) :=
  get_first_keeps_only_at_least_n [5, 150, 50, 200] 100 (by decide)

/-- C4: when every value of the series is strictly below the threshold,
align_from_threshold returns the none case, a defined not-found outcome
rather than an error. -/
theorem align_below_threshold_none (series : List Int) (n : Int)
    (h : ∀ x ∈ series, x < n) : align_from_threshold series n = none := by
  have hall : series.all (fun x => x < n) = true := by
    rw [List.all_eq_true]
    intro x hx
    simpa using h x hx
  simp [align_from_threshold, hall]

/-- Witness for C4 at the concrete scenario of the spec: series [1,2,3]
with threshold 100. -/
theorem align_below_threshold_none_witness :
    align_from_threshold [1, 2, 3] 100 = none :=
  align_below_threshold_none [1, 2, 3] 100 (by decide)

/-- C5: on a non-decreasing series with some value at least n, the aligned
series starts at day_index 0 and its count there is the first value of the
series that is at least n. -/
theorem align_first_point_at_threshold (series : List Int) (n : Int)
    (hmono : series.Pairwise (· ≤ ·)) (hex : ∃ x ∈ series, n ≤ x) :
    ∃ v rest, series.find? (fun x => n ≤ x) = some v ∧
      align_from_threshold series n = some ((0, v) :: rest) := by
  have halign : align_from_threshold series n =
      some ((series.filter (fun x => n ≤ x)).enum) := by
    unfold align_from_threshold
    rw [if_neg (not_all_lt series n hex)]
  obtain ⟨x, hx, hnx⟩ := hex
  have hmem : x ∈ series.filter (fun x => n ≤ x) := by
    rw [List.mem_filter]
    exact ⟨hx, by simpa using hnx⟩
  obtain ⟨v, t, hft⟩ : ∃ v t, series.filter (fun x => n ≤ x) = v :: t := by
    cases hf : series.filter (fun x => n ≤ x) with
    | nil => rw [hf] at hmem; cases hmem
    | cons v t => exact ⟨v, t, rfl⟩
  refine ⟨v, t.enumFrom 1, ?_, ?_⟩
  · rw [← head?_filter_eq_find?, hft]
    rfl
  · rw [halign, hft, List.enum_cons]

/-- Witness for C5 at the concrete non-decreasing scenario of the spec:
series [5, 40, 150, 300] with threshold 100. -/
theorem align_first_point_at_threshold_witness :
    ∃ v rest, ([5, 40, 150, 300] : List Int).find? (fun x => (100:Int) ≤ x) = some v ∧
      align_from_threshold [5, 40, 150, 300] 100 = some ((0, v) :: rest) :=
  align_first_point_at_threshold [5, 40, 150, 300] 100 (by decide) (by decide)

/-! Helper lemmas about daily_delta. -/

lemma daily_delta_aux_get? :
    ∀ (l : List Int) (prev : Int) (i : Nat), i < l.length →
      (daily_delta_aux prev l)[i]? = some (l.getD i 0 - (prev :: l).getD i 0)
  | [], _, i, h => by simp at h
  | y :: ys, prev, 0, _ => by simp [daily_delta_aux]
  | y :: ys, prev, i + 1, h => by
    have hi : i < ys.length := by simpa using h
    simpa [daily_delta_aux] using daily_delta_aux_get? ys y i hi

lemma daily_delta_aux_running (l : List Int) :
    ∀ acc : Int, daily_delta_aux acc (running_sum_aux acc l) = l := by
  induction l with
  | nil => intro acc; rfl
  | cons x xs ih =>
    intro acc
    simp [running_sum_aux, daily_delta_aux, ih (acc + x)]

lemma daily_delta_aux_zipWith_add :
    ∀ (a b : List Int) (p q : Int),
      daily_delta_aux (p + q) (List.zipWith (· + ·) a b) =
        List.zipWith (· + ·) (daily_delta_aux p a) (daily_delta_aux q b)
  | [], _, _, _ => by simp [daily_delta_aux]
  | _ :: _, [], _, _ => by simp [daily_delta_aux]
  | x :: xs, y :: ys, p, q => by
    simp only [List.zipWith_cons_cons, daily_delta_aux,
      daily_delta_aux_zipWith_add xs ys x y]
    congr 1
    omega

lemma daily_delta_zipWith_add (a b : List Int) :
    daily_delta (List.zipWith (· + ·) a b) =
      List.zipWith (· + ·) (daily_delta a) (daily_delta b) := by
  cases a with
  | nil => simp [daily_delta]
  | cons x xs =>
    cases b with
    | nil => simp [daily_delta]
    | cons y ys =>
      simp only [List.zipWith_cons_cons, daily_delta,
        daily_delta_aux_zipWith_add xs ys x y]

lemma daily_delta_aux_replicate :
    ∀ m : Nat, daily_delta_aux 0 (List.replicate m 0) = List.replicate m 0
  | 0 => rfl
  | m + 1 => by
    simp only [List.replicate_succ, daily_delta_aux, sub_zero]
    rw [daily_delta_aux_replicate m]

lemma daily_delta_replicate (nd : Nat) :
    daily_delta (List.replicate nd 0) = List.replicate nd 0 := by
  cases nd with
  | zero => rfl
  | succ m =>
    simp only [List.replicate_succ, daily_delta]
    rw [daily_delta_aux_replicate m]

lemma sumRows_map_daily_delta (nd : Nat) (rows : List (List Int)) :
    sumRows nd (rows.map daily_delta) = daily_delta (sumRows nd rows) := by
  induction rows with
  | nil => simp [sumRows, daily_delta_replicate]
  | cons r rest ih =>
    simp only [List.map_cons, sumRows, List.foldr_cons] at *
    rw [ih, ← daily_delta_zipWith_add]

/-- C3: on a non-empty series, the daily-new computation of plot_new_cases
preserves the length, copies the first value unchanged, and puts at every
later position the signed difference to the previous position, negative
differences included. -/
theorem daily_delta_pointwise (s : List Int) (h : s ≠ []) :
    (daily_delta s).length = s.length ∧
    (daily_delta s).head? = s.head? ∧
    ∀ i, i + 1 < s.length →
      (daily_delta s)[i + 1]? = some (s.getD (i + 1) 0 - s.getD i 0) := by
  obtain ⟨x, xs, rfl⟩ : ∃ x xs, s = x :: xs := by
    cases s with
    | nil => exact absurd rfl h
    | cons x xs => exact ⟨x, xs, rfl⟩
  refine ⟨?_, rfl, ?_⟩
  · have : ∀ (prev : Int) (l : List Int),
        (daily_delta_aux prev l).length = l.length := by
      intro prev l
      induction l generalizing prev with
      | nil => rfl
      | cons y ys ih => simp [daily_delta_aux, ih]
    simp [daily_delta, this]
  · intro i hi
    have hi2 : i < xs.length := by simpa using hi
    simp only [daily_delta, List.getElem?_cons_succ]
    rw [daily_delta_aux_get? xs x i hi2]
    simp [List.getD_cons_succ]

/-- Witness for C3 at the spec's concrete scenario: the cumulative series
[10, 20, 45]. -/
theorem daily_delta_pointwise_witness :
    (daily_delta [10, 20, 45]).length = ([10, 20, 45] : List Int).length ∧
    (daily_delta [10, 20, 45]).head? = ([10, 20, 45] : List Int).head? ∧
    ∀ i, i + 1 < ([10, 20, 45] : List Int).length →
      (daily_delta [10, 20, 45])[i + 1]? =
        some (([10, 20, 45] : List Int).getD (i + 1) 0 -
          ([10, 20, 45] : List Int).getD i 0) :=
  daily_delta_pointwise [10, 20, 45] (by decide)

/-- C6: daily_delta is a left inverse of cumulative summation: applied to
the running sum of any series of new counts it returns that series. -/
theorem daily_delta_left_inverse (D : List Int) :
    daily_delta (running_sum D) = D := by
  cases D with
  | nil => rfl
  | cons x xs =>
    simp [running_sum, running_sum_aux, daily_delta, zero_add,
      daily_delta_aux_running xs x]

/-- C10: taking day-over-day differences row by row (the daily_new table of
plot_new_cases) and then aggregating the rows of a country with
get_num_cases gives the same series as aggregating first and then taking
day-over-day differences of the aggregated series. -/
theorem new_cases_delta_commutes_with_aggregation (nd : Nat) (t : List Row)
    (country : String) (h : ∀ r ∈ t, r.counts.length = nd) :
    get_num_cases nd (daily_new_table t) country none =
      daily_delta (get_num_cases nd t country none) := by
  unfold get_num_cases daily_new_table
  rw [List.filter_map]
  have hcomp :
      ((fun r : Row => r.country == country) ∘
        (fun r : Row => { r with counts := daily_delta r.counts })) =
      (fun r : Row => r.country == country) := rfl
  rw [hcomp, List.map_map]
  have hcounts :
      (Row.counts ∘ fun r : Row => { r with counts := daily_delta r.counts }) =
      (daily_delta ∘ Row.counts) := rfl
  rw [hcounts, ← List.map_map, sumRows_map_daily_delta]

/-- Witness for C10 at a concrete two-row table sharing a three-date axis. -/
theorem new_cases_delta_commutes_with_aggregation_witness :
    get_num_cases 3 (daily_new_table
        [⟨some "CA", "US", [1, 3, 6]⟩, ⟨some "TX", "US", [2, 2, 5]⟩])
        "US" none =
      daily_delta (get_num_cases 3
        [⟨some "CA", "US", [1, 3, 6]⟩, ⟨some "TX", "US", [2, 2, 5]⟩]
        "US" none) :=
  new_cases_delta_commutes_with_aggregation 3
    [⟨some "CA", "US", [1, 3, 6]⟩, ⟨some "TX", "US", [2, 2, 5]⟩]
    "US" (by decide)

/-! Helper lemmas about table cells and pandas alignment. -/

lemma zipWith_getD {α β γ : Type} (f : α → β → γ) (a : List α) (b : List β)
    (i : Nat) (da : α) (db : β) (dc : γ) (ha : i < a.length)
    (hb : i < b.length) :
    (List.zipWith f a b).getD i dc = f (a.getD i da) (b.getD i db) := by
  have hab : i < (List.zipWith f a b).length := by
    rw [List.length_zipWith]; omega
  rw [List.getD_eq_getElem?_getD, List.getD_eq_getElem?_getD,
    List.getD_eq_getElem?_getD, List.getElem?_eq_getElem hab,
    List.getElem?_eq_getElem ha, List.getElem?_eq_getElem hb]
  simp [List.getElem_zipWith]

/-- C2: the active table of plot_active_cases holds, at every row and every
date position of the shared axis, exactly confirmed minus recovered minus
death at that row and position, in signed integer arithmetic (negative
values arise from the same subtraction and are preserved). -/
theorem active_cell_eq (c r d : List (List Int)) (i j : Nat)
    (hic : i < c.length) (hir : i < r.length) (hid : i < d.length)
    (hjc : j < (c.getD i []).length) (hjr : j < (r.getD i []).length)
    (hjd : j < (d.getD i []).length) :
    cell (active_table c r d) i j = cell c i j - cell r i j - cell d i j := by
  unfold cell active_table table_sub
  have hicr : i < (List.zipWith (List.zipWith (· - ·)) c r).length := by
    rw [List.length_zipWith]; omega
  rw [zipWith_getD _ _ _ i [] [] [] hicr hid,
    zipWith_getD _ _ _ i [] [] [] hic hir]
  have hjcr : j <
      (List.zipWith (· - ·) (c.getD i []) (r.getD i [])).length := by
    rw [List.length_zipWith]; omega
  rw [zipWith_getD _ _ _ j 0 0 0 hjcr hjd, zipWith_getD _ _ _ j 0 0 0 hjc hjr]

/-- Witness for C2 at a concrete cell whose value is negative: confirmed 3,
recovered 5, death 1 give active -3. -/
theorem active_cell_eq_witness :
    cell (active_table [[10, 3]] [[0, 5]] [[0, 1]]) 0 1 =
      cell [[10, 3]] 0 1 - cell [[0, 5]] 0 1 - cell [[0, 1]] 0 1 :=
  active_cell_eq [[10, 3]] [[0, 5]] [[0, 1]] 0 1 (by decide) (by decide)
    (by decide) (by decide) (by decide) (by decide)

lemma cellAt_toOpt (a : List (List Int)) (i j : Nat) (hi : i < a.length)
    (hj : j < a[i].length) :
    cellAt (toOpt a) i j = some a[i][j] := by
  unfold cellAt toOpt
  rw [List.getElem?_map, List.getElem?_eq_getElem hi]
  show ((a[i].map some)[j]?).join = some a[i][j]
  rw [List.getElem?_map, List.getElem?_eq_getElem hj]
  rfl

lemma pd_sub_row_toOpt (nd : Nat) (a b : List (List Int)) (i : Nat)
    (hia : i < a.length) (hib : i < b.length)
    (hrowa : a[i].length = nd) (hrowb : b[i].length = nd) :
    (List.range nd).map (fun j =>
        subCell (cellAt (toOpt a) i j) (cellAt (toOpt b) i j)) =
      (List.zipWith (· - ·) a[i] b[i]).map some := by
  apply List.ext_getElem?
  intro j
  by_cases hj : j < nd
  · rw [List.getElem?_map, List.getElem?_range hj, Option.map_some']
    have hja : j < a[i].length := by omega
    have hjb : j < b[i].length := by omega
    rw [cellAt_toOpt a i j hia hja, cellAt_toOpt b i j hib hjb]
    have hjz : j < (List.zipWith (· - ·) a[i] b[i]).length := by
      rw [List.length_zipWith]; omega
    rw [List.getElem?_map, List.getElem?_eq_getElem hjz, Option.map_some']
    rw [List.getElem_zipWith]
    rfl
  · rw [List.getElem?_eq_none, List.getElem?_eq_none]
    · rw [List.length_map, List.length_zipWith]
      omega
    · rw [List.length_map, List.length_range]
      omega

lemma pd_sub_toOpt (nd : Nat) (a b : List (List Int))
    (hlen : b.length = a.length)
    (ha : ∀ row ∈ a, row.length = nd) (hb : ∀ row ∈ b, row.length = nd) :
    pd_sub nd (toOpt a) (toOpt b) = toOpt (table_sub a b) := by
  have hmax : max (toOpt a).length (toOpt b).length = a.length := by
    simp only [toOpt, List.length_map, hlen]
    omega
  apply List.ext_getElem?
  intro i
  by_cases hia : i < a.length
  · have hib : i < b.length := by omega
    have hiz : i < (table_sub a b).length := by
      simp only [table_sub, List.length_zipWith]
      omega
    unfold pd_sub
    rw [List.getElem?_map, hmax, List.getElem?_range hia, Option.map_some']
    unfold toOpt
    rw [List.getElem?_map, List.getElem?_eq_getElem hiz, Option.map_some']
    have hzip : (table_sub a b)[i] = List.zipWith (· - ·) a[i] b[i] := by
      show (List.zipWith (List.zipWith (· - ·)) a b)[i] = _
      rw [List.getElem_zipWith]
    rw [hzip]
    exact congrArg some (pd_sub_row_toOpt nd a b i hia hib
      (ha a[i] (a.getElem_mem hia)) (hb b[i] (b.getElem_mem hib)))
  · rw [List.getElem?_eq_none, List.getElem?_eq_none]
    · simp only [toOpt, List.length_map, table_sub, List.length_zipWith]
      omega
    · simp only [pd_sub, List.length_map, List.length_range, hmax]
      omega

/-- C8 (counterexample): on misaligned inputs (confirmed and death have two
rows, recovered has one) the active-cases computation does not fail at all:
pandas alignment yields a defined table in which the unmatched row consists
of missing values. -/
theorem active_pd_total_on_misaligned :
    active_pd 2 [[10, 20], [5, 7]] [[1, 2]] [[0, 1], [1, 1]] =
      [[some 9, some 17], [none, none]] := by
  decide

/-- C8 (amended): the code performs no precondition check and can never
raise an alignment error (the computation is total); when the three tables
do satisfy positional row alignment and a common date axis, the result is
exactly the all-present element-wise difference table. -/
theorem active_pd_eq_elementwise (nd : Nat) (cf rc dt : List (List Int))
    (hr : rc.length = cf.length) (hd : dt.length = cf.length)
    (hcrow : ∀ row ∈ cf, row.length = nd)
    (hrrow : ∀ row ∈ rc, row.length = nd)
    (hdrow : ∀ row ∈ dt, row.length = nd) :
    active_pd nd cf rc dt = toOpt (active_table cf rc dt) := by
  unfold active_pd active_table
  rw [pd_sub_toOpt nd cf rc hr hcrow hrrow]
  have hsublen : dt.length = (table_sub cf rc).length := by
    simp [table_sub, List.length_zipWith, hr, hd]
  have hsubrow : ∀ row ∈ table_sub cf rc, row.length = nd := by
    intro row hrow
    rw [List.mem_iff_getElem] at hrow
    obtain ⟨k, hk, rfl⟩ := hrow
    have hkc : k < cf.length := by
      simp only [table_sub, List.length_zipWith] at hk
      omega
    have hkr : k < rc.length := by
      simp only [table_sub, List.length_zipWith] at hk
      omega
    show (List.zipWith (List.zipWith (· - ·)) cf rc)[k].length = nd
    rw [List.getElem_zipWith]
    rw [List.length_zipWith, hcrow (cf[k]) (cf.getElem_mem hkc),
      hrrow (rc[k]) (rc.getElem_mem hkr)]
    omega
  rw [pd_sub_toOpt nd (table_sub cf rc) dt hsublen hsubrow hdrow]

/-- Witness for the amended C8 theorem at concrete aligned tables. -/
theorem active_pd_eq_elementwise_witness :
    active_pd 2 [[10, 20], [5, 7]] [[1, 2], [0, 3]] [[0, 1], [1, 1]] =
      toOpt (active_table [[10, 20], [5, 7]] [[1, 2], [0, 3]]
        [[0, 1], [1, 1]]) :=
  active_pd_eq_elementwise 2 [[10, 20], [5, 7]] [[1, 2], [0, 3]]
    [[0, 1], [1, 1]] (by decide) (by decide) (by decide) (by decide)
    (by decide)

/-- C7 (counterexample): get_num_cases raises no error on a missing
geography: with a sub-region that matches no row it returns the empty
series, and with a country that matches no row it returns the all-zero
series over the date axis — where the claim predicts a NotFoundError in
both situations. -/
theorem get_num_cases_no_error_on_missing :
    get_num_cases 2 [⟨some "CA", "US", [1, 2]⟩] "US" (some "TX") = [] ∧
    get_num_cases 2 [⟨some "CA", "US", [1, 2]⟩] "FR" none = [0, 0] := by
  decide

/-- C7 (amended): with a sub-region given, get_num_cases returns the
concatenation of the counts of all rows matching country and sub-region —
in particular the unique matching row's series when exactly one row
matches — and with the sub-region omitted it returns the element-wise sum
over matching rows, which is the all-zero series (not an error) when no
row matches the country; no error is ever raised. -/
theorem get_num_cases_match_behavior (nd : Nat) (t : List Row)
    (c1 c2 p : String) (r : Row)
    (h1 : t.filter
      (fun row => row.country == c1 && row.province == some p) = [r])
    (h2 : ∀ row ∈ t, ¬ row.country = c2) :
    get_num_cases nd t c1 (some p) = r.counts ∧
    get_num_cases nd t c2 none = List.replicate nd 0 := by
  constructor
  · show ((t.filter
        (fun row => row.country == c1 && row.province == some p)).map
      Row.counts).flatten = r.counts
    rw [h1]
    simp
  · show sumRows nd
      ((t.filter (fun row => row.country == c2)).map Row.counts) =
        List.replicate nd 0
    have hnil : t.filter (fun row => row.country == c2) = [] := by
      rw [List.filter_eq_nil_iff]
      intro row hrow
      simpa using h2 row hrow
    rw [hnil]
    rfl

/-- Witness for the amended C7 theorem at a concrete one-row table, with
an exactly matching sub-region lookup and a country absent from the
table. -/
theorem get_num_cases_match_behavior_witness :
    get_num_cases 2 [⟨some "CA", "US", [1, 2]⟩] "US" (some "CA") =
      Row.counts ⟨some "CA", "US", [1, 2]⟩ ∧
    get_num_cases 2 [⟨some "CA", "US", [1, 2]⟩] "FR" none =
      List.replicate 2 0 :=
  get_num_cases_match_behavior 2 [⟨some "CA", "US", [1, 2]⟩] "US" "FR" "CA"
    ⟨some "CA", "US", [1, 2]⟩ (by decide) (by decide)

/-- C9: over any dates whose months are calendar months 1..12, the tick
list holds exactly one entry per distinct month of the input, each entry
being the synthetic date with day-of-month 28 of that month in the fixed
reference year 2020, and each entry is labeled as the two-digit month, a
dash, and the four-digit year 2020. -/
theorem month_ticks (dates : List Date)
    (h : ∀ d ∈ dates, 1 ≤ d.month ∧ d.month ≤ 12) :
    (get_end_months dates).Nodup ∧
    (∀ e, e ∈ get_end_months dates ↔
      ∃ d ∈ dates, e = ⟨2020, d.month, 28⟩) ∧
    (∀ e ∈ get_end_months dates,
      format_datetime e = pad2 e.month ++ "-2020") := by
  have hinj : Function.Injective get_end_month := by
    intro m1 m2 hm
    simpa [get_end_month, Date.mk.injEq] using hm
  refine ⟨?_, ?_, ?_⟩
  · exact ((List.nodup_range 13).filter _).map hinj
  · intro e
    unfold get_end_months month_list get_end_month
    simp only [List.mem_map, List.mem_filter, List.mem_range]
    constructor
    · rintro ⟨m, ⟨_, hmcont⟩, rfl⟩
      have hmem : m ∈ dates.map Date.month := by simpa using hmcont
      obtain ⟨d, hd, rfl⟩ := List.mem_map.mp hmem
      exact ⟨d, hd, rfl⟩
    · rintro ⟨d, hd, rfl⟩
      refine ⟨d.month, ⟨?_, ?_⟩, rfl⟩
      · have := h d hd
        omega
      · simpa using ⟨d, hd, rfl⟩
  · intro e he
    unfold get_end_months at he
    obtain ⟨m, _, rfl⟩ := List.mem_map.mp he
    show pad2 m ++ "-" ++ pad4 2020 = pad2 m ++ "-2020"
    have h4 : pad4 2020 = "2020" := by decide
    rw [h4, String.append_assoc]
    congr 1

/-- Witness for C9 at the spec's concrete scenario: dates spanning
January 22 to February 5 of 2020. -/
theorem month_ticks_witness :
    (get_end_months [⟨2020, 1, 22⟩, ⟨2020, 1, 31⟩, ⟨2020, 2, 5⟩]).Nodup ∧
    (∀ e, e ∈ get_end_months [⟨2020, 1, 22⟩, ⟨2020, 1, 31⟩, ⟨2020, 2, 5⟩] ↔
      ∃ d ∈ [⟨2020, 1, 22⟩, ⟨2020, 1, 31⟩, (⟨2020, 2, 5⟩ : Date)],
        e = ⟨2020, d.month, 28⟩) ∧
    (∀ e ∈ get_end_months [⟨2020, 1, 22⟩, ⟨2020, 1, 31⟩, ⟨2020, 2, 5⟩],
      format_datetime e = pad2 e.month ++ "-2020") :=
  month_ticks [⟨2020, 1, 22⟩, ⟨2020, 1, 31⟩, ⟨2020, 2, 5⟩] (by decide)

end Corona
